import Mathlib

/-!
Shallow embedding of `src/pack.h`, a compile-time binary (de)serialization
engine.  Buffers (`std::string`) are modelled as `List Nat` of byte values;
string iterators become `Nat` indices into the buffer; a `piece` (the
deferred-decoding view base class) stores the string it points into together
with its begin and end indices.  Thrown `pack::exception`s become
`Except String` with the exact message of the source.  The machine is
little-endian (the source itself sets `native = little`), so a value's native
byte layout is its base-256 little-endian digit list.
-/

namespace Pack

/-- Byte order, from `enum class endian`.  `native` is an alias for `little`
in the source. -/
inductive endian where
  | little
  | big
deriving DecidableEq

/-- The source's `endian::native = little`. -/
def endian.native : endian := .little

/-- `byte_copy<order>`: copy a byte span in original order for
`native`/`little`, reversed for `big`. -/
def byte_copy (order : endian) (src : List Nat) : List Nat :=
  match order with
  | .little => src
  | .big => src.reverse

/-- The native (little-endian) byte layout of value `v` in `w` bytes: what
`reinterpret_cast<const char*>(&value)` exposes on the little-endian machine. -/
def nativeBytes : Nat → Nat → List Nat
  | 0, _ => []
  | w + 1, v => v % 256 :: nativeBytes w (v / 256)

/-- Reinterpret a native (little-endian) byte list as a numeric value: the
inverse direction of `nativeBytes`, used by `integral::decoder::decode`.
Missing high bytes read as the zero-initialised `raw_type temp(0)`. -/
def fromNative : List Nat → Nat
  | [] => 0
  | b :: rest => b + 256 * fromNative rest

/-- `struct piece`: a non-owning view into a specific string, stored as the
string plus begin and end indices (`std::string::const_iterator` pair). -/
structure piece where
  src : List Nat
  b : Nat
  e : Nat
deriving DecidableEq

/-- The byte range `[begin, end)` a piece designates. -/
def piece.bytes (p : piece) : List Nat :=
  (p.src.drop p.b).take (p.e - p.b)

/-- The static `null` string of `integral::unpack`: `sizeof(raw_type)` zero
bytes backing the shared `null_decoder`. -/
def nullBuf (w : Nat) : List Nat := List.replicate w 0

/-- `integral<raw_type, order>::chain::pack` for one field: `byte_copy` the
value's native bytes into a `sizeof(raw_type)`-byte buffer. -/
def integral.pack (w : Nat) (o : endian) (v : Nat) : List Nat :=
  byte_copy o (nativeBytes w v)

/-- `integral::unpack`: if `current + sizeof(raw_type) <= end`, capture a view
of those bytes and advance the cursor; otherwise return the shared
`null_decoder` (a view of the static zero string) and leave the cursor
unchanged. -/
def integral.unpack (w : Nat) (o : endian) (buf : List Nat) (cur : Nat) :
    piece × Nat :=
  if cur + w ≤ buf.length then
    (⟨buf, cur, cur + w⟩, cur + w)
  else
    (⟨nullBuf w, 0, w⟩, cur)

/-- `integral::decoder::decode`: `byte_copy` the view's bytes into the
zero-initialised `raw_type temp` and read it back as a number. -/
def integral.decode (o : endian) (p : piece) : Nat :=
  fromNative (byte_copy o p.bytes)

/-- `fixed_string<length>::chain::pack` for one field: throw unless the value
has exactly the declared length, else emit it verbatim. -/
def fixed_string.pack (length : Nat) (value : List Nat) :
    Except String (List Nat) :=
  if value.length ≠ length then
    .error ("Packed string should be of length " ++ toString length)
  else
    .ok value

/-- `fixed_string<length>::unpack`: capture a view of exactly `length` bytes
and advance, or throw when fewer than `length` bytes remain. -/
def fixed_string.unpack (length : Nat) (buf : List Nat) (cur : Nat) :
    Except String (piece × Nat) :=
  if cur + length ≤ buf.length then
    .ok (⟨buf, cur, cur + length⟩, cur + length)
  else
    .error "Not enough data left in buffer to unpack fixed_string"

/-- `varchar<length_encoder>::chain::pack` for one field: the length encoder's
packing of `value.size()` followed by the raw bytes.  The implicit
`size_t` → `raw_type` conversion is absorbed by `nativeBytes` keeping only
`lw` bytes. -/
def varchar.pack (lw : Nat) (lo : endian) (value : List Nat) : List Nat :=
  integral.pack lw lo value.length ++ value

/-- `varchar::unpack`: eagerly decode the length field, then test
`unsigned(end - current) <= length` (the iterator difference is cast to the
32-bit `unsigned`); on success return `decoder(begin, current + length)`
where `current` has already advanced by `length`, else throw. -/
def varchar.unpack (lw : Nat) (lo : endian) (buf : List Nat) (cur : Nat) :
    Except String (piece × Nat) :=
  let r := integral.unpack lw lo buf cur
  let length := integral.decode lo r.1
  if (buf.length - r.2) % 4294967296 ≤ length then
    .ok (⟨buf, r.2, r.2 + length + length⟩, r.2 + length)
  else
    .error "Not enough data left in unpack of varchar"

/-- A field specifier: one template element of a `format<...>`. -/
inductive field where
  | integral (w : Nat) (o : endian)
  | fixed_string (length : Nat)
  | varchar (lw : Nat) (lo : endian)
deriving DecidableEq

/-- A decoded value: the entries of the tuple `format::unpack` returns and
`format::pack` consumes. -/
inductive value where
  | int (v : Nat)
  | str (s : List Nat)
deriving DecidableEq

/-- One deferred decoder in the unpack plan: an `integral::decoder` (which
remembers its byte order) or a `stringer::decoder`. -/
inductive view where
  | int (o : endian) (p : piece)
  | str (p : piece)
deriving DecidableEq

/-- `decode` one plan entry into its typed value (`decode_all` maps this over
the plan tuple). -/
def view.decode : view → value
  | .int o p => .int (integral.decode o p)
  | .str p => .str p.bytes

/-- `follow_up<...>::pack` chaining as done by `format::pack`: each field's
`chain::pack` emits its bytes and prepends them to the followers' output; the
`finalizer` ends the chain with the empty string.  Arity or type mismatches,
a compile error in the source, become an error value here. -/
def format.pack : List field → List value → Except String (List Nat)
  | [], [] => .ok []
  | .integral w o :: fs, .int v :: vs =>
      (format.pack fs vs).map (fun rest => integral.pack w o v ++ rest)
  | .fixed_string len :: fs, .str s :: vs =>
      if s.length ≠ len then
        .error ("Packed string should be of length " ++ toString len)
      else
        (format.pack fs vs).map (fun rest => s ++ rest)
  | .varchar lw lo :: fs, .str s :: vs =>
      (format.pack fs vs).map (fun rest => varchar.pack lw lo s ++ rest)
  | _, _ => .error "pack arguments do not match the format"

/-- `follow_up<...>::unpack`: run each field's `unpack` in declaration order,
threading the cursor (the head advances the iterator the tail then reads),
and collect one view per field. -/
def follow_up.unpack : List field → List Nat → Nat →
    Except String (List view × Nat)
  | [], _, cur => .ok ([], cur)
  | .integral w o :: fs, buf, cur =>
      let r := integral.unpack w o buf cur
      (follow_up.unpack fs buf r.2).map (fun t => (view.int o r.1 :: t.1, t.2))
  | .fixed_string len :: fs, buf, cur =>
      (fixed_string.unpack len buf cur).bind (fun r =>
        (follow_up.unpack fs buf r.2).map (fun t => (view.str r.1 :: t.1, t.2)))
  | .varchar lw lo :: fs, buf, cur =>
      (varchar.unpack lw lo buf cur).bind (fun r =>
        (follow_up.unpack fs buf r.2).map (fun t => (view.str r.1 :: t.1, t.2)))

/-- `format<elements...>::unpack`: build the full plan starting the cursor at
the buffer's begin, then `decode_all` the plan into the result tuple. -/
def format.unpack (fs : List field) (packed : List Nat) :
    Except String (List value) :=
  (follow_up.unpack fs packed 0).map (fun t => t.1.map view.decode)

/-! Helper lemmas shared by the claim theorems. -/

/-- The shared null view of an integral field designates `w` zero bytes. -/
theorem nullBuf_bytes (w : Nat) :
    (piece.mk (nullBuf w) 0 w).bytes = List.replicate w 0 := by
  simp [piece.bytes, nullBuf]

/-- A list of zero bytes reads back as the value zero. -/
theorem fromNative_replicate_zero (n : Nat) :
    fromNative (List.replicate n 0) = 0 := by
  induction n with
  | zero => rfl
  | succ n ih => simp [List.replicate, fromNative, ih]

/-- Decoding the shared null view yields zero under either byte order. -/
theorem decode_nullBuf (w : Nat) (o : endian) :
    integral.decode o ⟨nullBuf w, 0, w⟩ = 0 := by
  cases o <;>
    simp [integral.decode, byte_copy, nullBuf_bytes, List.reverse_replicate,
      fromNative_replicate_zero]

/-- `nativeBytes` keeps only the low `w` bytes of the value: reducing the
value modulo `2 ^ (8 * w)` first does not change the emitted bytes. -/
theorem nativeBytes_mod (w : Nat) :
    ∀ v, nativeBytes w (v % 2 ^ (8 * w)) = nativeBytes w v := by
  induction w with
  | zero => intro v; rfl
  | succ w ih =>
    intro v
    have hpow : 2 ^ (8 * (w + 1)) = 256 * 2 ^ (8 * w) := by
      have h8 : 8 * (w + 1) = 8 + 8 * w := by ring
      rw [h8, Nat.pow_add]
    have hdvd : (256 : Nat) ∣ 256 * 2 ^ (8 * w) :=
      dvd_mul_right 256 (2 ^ (8 * w))
    rw [hpow]
    show (v % (256 * 2 ^ (8 * w))) % 256 ::
        nativeBytes w ((v % (256 * 2 ^ (8 * w))) / 256)
      = v % 256 :: nativeBytes w (v / 256)
    rw [Nat.mod_mod_of_dvd v hdvd, Nat.mod_mul_right_div_self, ih]

/-! The claim theorems. -/

/-- Claim C1 (code bug): the round-trip property fails.  Packing the values
("a", 5) under the format [VarString(uint32 le), Integral(4, le)] yields the
nine bytes 01 00 00 00 61 05 00 00 00, yet unpacking exactly those bytes
throws "Not enough data left in unpack of varchar": the varchar bounds check
is inverted (it requires remaining ≤ length), so unpack rejects pack's own
output whenever data follows a varchar payload. -/
theorem c1_roundtrip_fails_on_own_output :
    format.pack [.varchar 4 .little, .integral 4 .little] [.str [97], .int 5] =
      .ok [1, 0, 0, 0, 97, 5, 0, 0, 0] ∧
    format.unpack [.varchar 4 .little, .integral 4 .little]
        [1, 0, 0, 0, 97, 5, 0, 0, 0] =
      .error "Not enough data left in unpack of varchar" := by
  constructor <;> rfl

/-- Claim C2 (code bug): varchar unpack's acceptance condition is the reverse
of the claimed one, and its success view is twice as long as claimed.  On
buffer 01 00 00 00 61 62 the decoded length 1 is at most the 2 remaining
bytes, yet unpack throws; on buffer 05 00 00 00 61 the decoded length 5
exceeds the 1 remaining byte, yet unpack succeeds, captures a view of
2·length = 10 bytes (indices 4 to 14, past the 5-byte buffer), and advances
the cursor to 9. -/
theorem c2_varchar_check_inverted :
    varchar.unpack 4 .little [1, 0, 0, 0, 97, 98] 0 =
      .error "Not enough data left in unpack of varchar" ∧
    varchar.unpack 4 .little [5, 0, 0, 0, 97] 0 =
      .ok (⟨[5, 0, 0, 0, 97], 4, 14⟩, 9) := by
  constructor <;> rfl

/-- Claim C3 (code bug): trailing bytes are not always ignored.  The format
[VarString(uint32 le)] consumes five bytes of 01 00 00 00 61 58 (its own
packing of "a" plus one trailing byte), but instead of succeeding and
ignoring the sixth byte, unpack throws, because after the prefix the 2
remaining bytes exceed the decoded length 1 and the inverted varchar check
rejects that. -/
theorem c3_trailing_byte_rejected :
    format.pack [.varchar 4 .little] [.str [97]] = .ok [1, 0, 0, 0, 97] ∧
    format.unpack [.varchar 4 .little] [1, 0, 0, 0, 97, 88] =
      .error "Not enough data left in unpack of varchar" := by
  constructor <;> rfl

/-- Claim C4: unpacking the empty buffer against a single 4-byte little-endian
integral field succeeds with the value 0, while against a single
FixedString(4) field it fails with the buffer-underrun error. -/
theorem c4_underrun_asymmetry :
    format.unpack [.integral 4 .little] [] = .ok [.int 0] ∧
    format.unpack [.fixed_string 4] [] =
      .error "Not enough data left in buffer to unpack fixed_string" := by
  constructor <;> rfl

/-- Claim C5: packing the 16-bit value 0x0102 little-endian yields the bytes
[0x02, 0x01]; packing it big-endian yields [0x01, 0x02]. -/
theorem c5_endianness :
    format.pack [.integral 2 .little] [.int 0x0102] = .ok [0x02, 0x01] ∧
    format.pack [.integral 2 .big] [.int 0x0102] = .ok [0x01, 0x02] := by
  constructor <;> rfl

/-- Claim C6: packing a FixedString(L) field fails with the length-mismatch
error exactly when the input's byte length differs from L, and otherwise
emits the input's bytes verbatim, with no length prefix. -/
theorem c6_fixed_string_pack_exact (L : Nat) (s : List Nat) :
    format.pack [.fixed_string L] [.str s] =
      if s.length = L then .ok s
      else .error ("Packed string should be of length " ++ toString L) := by
  by_cases h : s.length = L <;> simp [format.pack, h, Except.map]

/-- Claim C7: under the format [Integral(4, le), FixedString(3)], packing
(1, "abc") yields exactly 01 00 00 00 61 62 63, and unpacking those bytes
returns the tuple (1, "abc") in that order. -/
theorem c7_multi_field_ordering :
    format.pack [.integral 4 .little, .fixed_string 3]
        [.int 1, .str [0x61, 0x62, 0x63]] =
      .ok [0x01, 0x00, 0x00, 0x00, 0x61, 0x62, 0x63] ∧
    format.unpack [.integral 4 .little, .fixed_string 3]
        [0x01, 0x00, 0x00, 0x00, 0x61, 0x62, 0x63] =
      .ok [.int 1, .str [0x61, 0x62, 0x63]] := by
  constructor <;> rfl

/-- Claim C8: when fewer than `w` bytes remain, an integral field's unpack
returns the shared zero-filled view over the static null string and leaves
the cursor unchanged, so within a format the following fields start parsing
at the very same position. -/
theorem c8_integral_underrun_keeps_cursor (w : Nat) (o : endian)
    (buf : List Nat) (cur : Nat) (fs : List field)
    (h : buf.length < cur + w) :
    integral.unpack w o buf cur = (⟨nullBuf w, 0, w⟩, cur) ∧
    follow_up.unpack (.integral w o :: fs) buf cur =
      (follow_up.unpack fs buf cur).map
        (fun t => (view.int o ⟨nullBuf w, 0, w⟩ :: t.1, t.2)) := by
  have h1 : ¬ (cur + w ≤ buf.length) := by omega
  constructor
  · simp [integral.unpack, h1]
  · simp [follow_up.unpack, integral.unpack, h1]

/-- Claim C8, instantiated: a 4-byte integral field against the 1-byte buffer
[7] underruns, yields the null view, and the cursor stays at 0 for the
following fixed-string field. -/
theorem c8_integral_underrun_keeps_cursor_witness :
    ([7] : List Nat).length < 0 + 4 ∧
    (integral.unpack 4 .little [7] 0 = (⟨nullBuf 4, 0, 4⟩, 0) ∧
     follow_up.unpack (.integral 4 .little :: [.fixed_string 1]) [7] 0 =
       (follow_up.unpack [.fixed_string 1] [7] 0).map
         (fun t => (view.int .little ⟨nullBuf 4, 0, 4⟩ :: t.1, t.2))) :=
  ⟨by decide,
   c8_integral_underrun_keeps_cursor 4 .little [7] 0 [.fixed_string 1]
     (by decide)⟩

/-- Claim C9: a varchar field unpacked with zero bytes remaining succeeds with
an empty view rather than erroring: the missing length field decodes to 0
through the integral underrun policy, the bounds test passes with length 0,
and the captured view decodes to the empty string. -/
theorem c9_varchar_empty_remainder (lw : Nat) (lo : endian) (buf : List Nat)
    (cur : Nat) (hw : 0 < lw) (hcur : buf.length ≤ cur) :
    varchar.unpack lw lo buf cur = .ok (⟨buf, cur, cur⟩, cur) ∧
    view.decode (view.str ⟨buf, cur, cur⟩) = .str [] := by
  have h1 : ¬ (cur + lw ≤ buf.length) := by omega
  have h0 : buf.length - cur = 0 := Nat.sub_eq_zero_of_le hcur
  constructor
  · simp [varchar.unpack, integral.unpack, h1, decode_nullBuf, h0]
  · simp [view.decode, piece.bytes]

/-- Claim C9, instantiated: unpacking the empty buffer against a default
varchar field yields the empty string. -/
theorem c9_varchar_empty_remainder_witness :
    (0 < 4 ∧ ([] : List Nat).length ≤ 0) ∧
    (varchar.unpack 4 .little [] 0 = .ok (⟨[], 0, 0⟩, 0) ∧
     view.decode (view.str ⟨[], 0, 0⟩) = .str []) :=
  ⟨⟨by decide, by decide⟩,
   c9_varchar_empty_remainder 4 .little [] 0 (by decide) (by decide)⟩

/-- Claim C10: a varchar field's length prefix is the string's byte length
reduced modulo `2 ^ (8 * lw)`, the length encoder's integer range — for the
default 32-bit unsigned little-endian encoder, modulo 2^32 — followed by the
raw bytes. -/
theorem c10_varchar_length_wraps (lw : Nat) (lo : endian) (s : List Nat) :
    varchar.pack lw lo s =
      integral.pack lw lo (s.length % 2 ^ (8 * lw)) ++ s ∧
    varchar.pack 4 .little s =
      integral.pack 4 .little (s.length % 4294967296) ++ s := by
  constructor
  · unfold varchar.pack integral.pack
    rw [nativeBytes_mod]
  · unfold varchar.pack integral.pack
    have h : (4294967296 : Nat) = 2 ^ (8 * 4) := by norm_num
    rw [h, nativeBytes_mod]

end Pack
